import Mathlib

/-!
Verification development for the check-in form application
(`helpers.py`, `checkin.py`, `current.py`).

Modelling conventions (shallow embedding):

* A spreadsheet (pandas `DataFrame`) is a `List` of record structures, one
  structure per worksheet row; column selection is structure projection.
* A wall-clock time string `"HH:MM:SS"` is an `STime` record of its three
  numeric fields.  pandas sorts those zero-padded strings lexicographically,
  which is exactly the lexicographic order on `(hour, minute, second)`;
  `pd.to_datetime(..).dt.hour` is the `hour` field.
* A calendar date string `"YYYY-MM-DD"` (and the `datetime` values compared
  against it after `strftime('%Y-%m-%d')`) is a `Nat` day index: both the
  string comparison on ISO dates and the `datetime` comparison are the linear
  order on days, and `datetime.timedelta(days=1)` is `+ 1`.
* `df.sort_values(by=ks)` is `List.mergeSort` with the lexicographic
  comparator on the key columns `ks`; `df.drop_duplicates(subset, keep)` is
  `drop_duplicates_first` / `drop_duplicates_last` on the `subset` key.
* A raised `ValueError` is the `Except.error` branch of an `Except` result.
-/

namespace CheckinForm

/-- Lexicographic combination of orders: compare the projection `f` first and
fall back to `g` on ties.  `sort_values(by=[k, ...rest])` orders rows by
`lexLe (column k) (order of rest)`. -/
def lexLe {α : Type} {β : Type} [LinearOrder β] (f : α → β) (g : α → α → Prop)
    (a b : α) : Prop :=
  f a < f b ∨ (f a = f b ∧ g a b)

instance {α β : Type} [LinearOrder β] (f : α → β) (g : α → α → Prop)
    [DecidableRel g] : DecidableRel (lexLe f g) := fun a b => by
  unfold lexLe; exact inferInstanceAs (Decidable _)

theorem lexLe_trans {α β : Type} [LinearOrder β] {f : α → β} {g : α → α → Prop}
    (hg : ∀ a b c, g a b → g b c → g a c) :
    ∀ a b c, lexLe f g a b → lexLe f g b c → lexLe f g a c := by
  intro a b c hab hbc
  rcases hab with hab | ⟨hab, gab⟩
  · rcases hbc with hbc | ⟨hbc, _⟩
    · exact Or.inl (lt_trans hab hbc)
    · exact Or.inl (hbc ▸ hab)
  · rcases hbc with hbc | ⟨hbc, gbc⟩
    · exact Or.inl (hab ▸ hbc)
    · exact Or.inr ⟨hab.trans hbc, hg a b c gab gbc⟩

theorem lexLe_total {α β : Type} [LinearOrder β] {f : α → β} {g : α → α → Prop}
    (hg : ∀ a b, g a b ∨ g b a) (a b : α) :
    lexLe f g a b ∨ lexLe f g b a := by
  rcases lt_trichotomy (f a) (f b) with h | h | h
  · exact Or.inl (Or.inl h)
  · rcases hg a b with hga | hga
    · exact Or.inl (Or.inr ⟨h, hga⟩)
    · exact Or.inr (Or.inr ⟨h.symm, hga⟩)
  · exact Or.inr (Or.inl h)

theorem lexLe_refl {α β : Type} [LinearOrder β] {f : α → β} {g : α → α → Prop}
    (hg : ∀ a, g a a) (a : α) : lexLe f g a a :=
  Or.inr ⟨rfl, hg a⟩

/-- A wall-clock time `"HH:MM:SS"` (`SubmitTime`, `OverrideTime`, correction
`Time` values), split into its numeric fields. -/
structure STime where
  hour : Nat
  minute : Nat
  second : Nat
deriving DecidableEq, Repr

/-- Order on times: lexicographic on `(hour, minute, second)`, which is the
string order pandas uses on zero-padded `"HH:MM:SS"` strings. -/
def STime.le (a b : STime) : Prop :=
  lexLe (fun t : STime => t.hour)
    (lexLe (fun t : STime => t.minute)
      (fun x y => x.second ≤ y.second)) a b

instance : DecidableRel STime.le := fun a b => by
  unfold STime.le; exact inferInstanceAs (Decidable _)

theorem STime.le_trans : ∀ {a b c : STime}, a.le b → b.le c → a.le c := by
  intro a b c h1 h2
  simp only [STime.le, lexLe] at h1 h2 ⊢
  omega

theorem STime.le_total (a b : STime) : a.le b ∨ b.le a := by
  apply lexLe_total
  intro x y
  apply lexLe_total
  intro u v
  exact Nat.le_total u.second v.second

theorem STime.le_refl (a : STime) : a.le a := by
  apply lexLe_refl
  intro x
  apply lexLe_refl
  intro u
  exact Nat.le_refl u.second

/-- Boolean form of `STime.le`, used as a `mergeSort` comparator. -/
def STime.leb (a b : STime) : Bool := decide (a.le b)

/-- The two daily periods (`helpers.TimePeriod`). -/
inductive TimePeriod where
  | MORNING
  | AFTERNOON
deriving DecidableEq, Repr

/-- One row of the `checkins` / `checkouts` worksheets, columns in the order
written by `checkin.py` (`SubmitTime, SubmitDate, OverrideTime, FullName,
LastName, FirstName, Grade`).  A blank `OverrideTime` cell is `none`. -/
structure Event where
  SubmitTime : STime
  SubmitDate : Nat
  OverrideTime : Option STime
  FullName : String
  LastName : String
  FirstName : String
  Grade : String
deriving DecidableEq, Repr

/-- `checkin.py` lines 11-15 / `current.py` lines 57-61: the time-period
classifier `MORNING if hour < 9 else AFTERNOON`. -/
def time_period (t : STime) : TimePeriod :=
  if t.hour < 9 then TimePeriod.MORNING else TimePeriod.AFTERNOON

/-- The time-period row filter of `get_students` (`helpers.py` lines 179-182):
MORNING keeps rows with `SubmitTime` hour `< 9`, AFTERNOON keeps `>= 9`. -/
def periodKeep (tp : TimePeriod) (e : Event) : Bool :=
  match tp with
  | TimePeriod.MORNING => decide (e.SubmitTime.hour < 9)
  | TimePeriod.AFTERNOON => decide (9 ≤ e.SubmitTime.hour)

/-- Helper for `drop_duplicates(keep='first')`: walk the list keeping the
first row of each key, remembering the keys already `seen`. -/
def dropDupFirstAux {α κ : Type} [DecidableEq κ] (key : α → κ) (seen : List κ) :
    List α → List α
  | [] => []
  | x :: xs =>
    if key x ∈ seen then dropDupFirstAux key seen xs
    else x :: dropDupFirstAux key (key x :: seen) xs

/-- pandas `df.drop_duplicates(subset=key, keep='first')`: keep the first row
of each key, in order. -/
def drop_duplicates_first {α κ : Type} [DecidableEq κ] (key : α → κ)
    (l : List α) : List α :=
  dropDupFirstAux key [] l

/-- pandas `df.drop_duplicates(subset=key, keep='last')`: keep the last row
of each key, in order. -/
def drop_duplicates_last {α κ : Type} [DecidableEq κ] (key : α → κ)
    (l : List α) : List α :=
  (dropDupFirstAux key [] l.reverse).reverse

/-- The dedup key of `get_students`: the `(FullName, SubmitDate)` pair. -/
def Event.nameDateKey (e : Event) : String × Nat := (e.FullName, e.SubmitDate)

/-- `helpers.get_students` (lines 150-194), with the worksheet read replaced
by the explicit row list `events`: filter to the requested `SubmitDate` (when
given), filter to the requested time period by `SubmitTime` hour, sort by
`SubmitTime` and drop duplicate `(FullName, SubmitDate)` rows keeping the
first. -/
def get_students (events : List Event) (date : Option Nat) (tp : TimePeriod) :
    List Event :=
  let byDate : List Event := match date with
    | some d => events.filter (fun e => decide (e.SubmitDate = d))
    | none => events
  let byPeriod : List Event := byDate.filter (periodKeep tp)
  let sorted : List Event :=
    byPeriod.mergeSort (fun a b => STime.leb a.SubmitTime b.SubmitTime)
  drop_duplicates_first Event.nameDateKey sorted

/-- What pandas guarantees of `sort_values(by='SubmitTime')` regardless of
the sort kind — the default `kind='quicksort'` is documented as unstable, so
only this much is promised: the result is a permutation of the input that is
sorted by `SubmitTime`.  The relative order of rows with tied `SubmitTime`
is unspecified. -/
def SubmitTimeSort (f : List Event → List Event) : Prop :=
  ∀ l : List Event,
    (f l).Perm l
      ∧ (f l).Pairwise (fun a b => a.SubmitTime.le b.SubmitTime)

/-- `helpers.get_students` (lines 150-194) with the sort step left as a
parameter: since the single-key `sort_values(by='SubmitTime')` uses pandas'
unstable default kind, the program only ever runs *some* `SubmitTimeSort`,
and properties of `get_students` that depend on the tie order of equal
`SubmitTime` values are not properties of the program.  `get_students`
itself is the instance at the stable `mergeSort`. -/
def get_students_sort (sortfn : List Event → List Event)
    (events : List Event) (date : Option Nat) (tp : TimePeriod) :
    List Event :=
  let byDate : List Event := match date with
    | some d => events.filter (fun e => decide (e.SubmitDate = d))
    | none => events
  let byPeriod : List Event := byDate.filter (periodKeep tp)
  drop_duplicates_first Event.nameDateKey (sortfn byPeriod)

/-- Insert `x` below every element `y` with `le y x`, so below tied
elements too. -/
def insertBelow {α : Type} (le : α → α → Bool) (x : α) : List α → List α
  | [] => [x]
  | y :: ys => if le y x then y :: insertBelow le x ys else x :: y :: ys

/-- An insertion sort that places later input elements before earlier tied
ones: a sort meeting the `sort_values` contract that is not stable, as the
default `kind='quicksort'` is allowed to be. -/
def unstableSortWitness {α : Type} (le : α → α → Bool) : List α → List α
  | [] => []
  | x :: xs => insertBelow le x (unstableSortWitness le xs)

/-- `current.py` lines 74-81: rows of the checked-in frame whose `FullName`
does not occur among the checked-out `FullName` values. -/
def df_current (df_checkedin df_checkedout : List Event) : List Event :=
  df_checkedin.filter
    (fun e => !(df_checkedout.any (fun o => o.FullName == e.FullName)))

/-- The `Action` tag added by `get_attendance` to each source log. -/
inductive Action where
  | checkin
  | checkout
deriving DecidableEq, Repr

/-- The `ValueError('date_end must be later than date_start')` raised by
`get_attendance` and `get_corrections`. -/
inductive RangeErr where
  | InvalidRange
deriving DecidableEq, Repr

/-- Output row of `get_attendance`, fields in the fixed `order_of_columns`
(lines 266-275); the `FullName` column is dropped by that selection. -/
structure AttRow where
  LastName : String
  FirstName : String
  Action : Action
  SubmitDate : Nat
  SubmitTime : STime
  OverrideTime : Option STime
  Grade : String
deriving DecidableEq, Repr

/-- Sort order of `get_attendance`
(`sort_values(by=['LastName','FirstName','SubmitDate','SubmitTime'])`). -/
def attLe (a b : Event) : Prop :=
  lexLe (fun e : Event => e.LastName)
    (lexLe (fun e : Event => e.FirstName)
      (lexLe (fun e : Event => e.SubmitDate)
        (fun x y => x.SubmitTime.le y.SubmitTime))) a b

instance : DecidableRel attLe := fun a b => by
  unfold attLe; exact inferInstanceAs (Decidable _)

/-- The same order on the projected output rows. -/
def attRowLe (a b : AttRow) : Prop :=
  lexLe (fun r : AttRow => r.LastName)
    (lexLe (fun r : AttRow => r.FirstName)
      (lexLe (fun r : AttRow => r.SubmitDate)
        (fun x y => x.SubmitTime.le y.SubmitTime))) a b

/-- The column selection `df[order_of_columns]` applied to a tagged row. -/
def AttRow.ofTagged (p : Event × CheckinForm.Action) : AttRow :=
  { LastName := p.1.LastName
    FirstName := p.1.FirstName
    Action := p.2
    SubmitDate := p.1.SubmitDate
    SubmitTime := p.1.SubmitTime
    OverrideTime := p.1.OverrideTime
    Grade := p.1.Grade }

/-- The dedup key of `get_attendance`
(`subset=['LastName','FirstName','SubmitDate','Action']`, lines 280-288). -/
def AttRow.dupKey (r : AttRow) : String × String × Nat × CheckinForm.Action :=
  (r.LastName, r.FirstName, r.SubmitDate, r.Action)

/-- The attendance frame built by `get_attendance` before the optional
duplicate drop (lines 222-275): tag each log with its `Action`, concatenate,
keep the inclusive `SubmitDate` range, keep the optional student list (a
no-op for an empty list, like the falsy `if students:`), sort and select the
output columns. -/
def attendanceRows (checkins checkouts : List Event)
    (students : Option (List String)) (date_start date_end : Nat) :
    List AttRow :=
  let tagged : List (Event × Action) :=
    checkins.map (fun e => (e, Action.checkin))
      ++ checkouts.map (fun e => (e, Action.checkout))
  let dated : List (Event × Action) := tagged.filter
    (fun p => decide (date_start ≤ p.1.SubmitDate)
      && decide (p.1.SubmitDate ≤ date_end))
  let named : List (Event × Action) := match students with
    | some ss =>
      if ss.isEmpty then dated
      else dated.filter (fun p => ss.contains p.1.FullName)
    | none => dated
  let sorted : List (Event × Action) :=
    named.mergeSort (fun p q => decide (attLe p.1 q.1))
  sorted.map AttRow.ofTagged

/-- `helpers.get_attendance` (lines 196-290), with the two worksheet reads
replaced by the explicit row lists and `datetime.datetime.today()` by the
parameter `today`: default the missing dates (`date_start` to today,
`date_end` to `date_start` plus one day), raise on an inverted range before
anything else, then build the attendance frame and optionally drop duplicate
`(LastName, FirstName, SubmitDate, Action)` rows keeping the last. -/
def get_attendance (checkins checkouts : List Event)
    (students : Option (List String)) (today : Nat)
    (dateStart? dateEnd? : Option Nat) (drop_dups : Bool) :
    Except RangeErr (List AttRow) :=
  let date_start := dateStart?.getD today
  let date_end := dateEnd?.getD (date_start + 1)
  if date_end < date_start then Except.error RangeErr.InvalidRange
  else
    let rows := attendanceRows checkins checkouts students date_start date_end
    Except.ok (if drop_dups then drop_duplicates_last AttRow.dupKey rows else rows)

/-- One row of the corrections worksheet after the column renames of
`get_corrections` (lines 346-364), with `Date` and `Time` already parsed and
the "Choose Student (Grade N)" cells collected in worksheet column order;
a blank cell reads as pandas `NaN`, modelled as `none`. -/
structure CorrRow where
  Timestamp : String
  SubmittedBy : String
  Grade : String
  Session : String
  Action : String
  Date : Nat
  Time : STime
  Notes : String
  studentCells : List (Option String)
deriving DecidableEq, Repr

/-- Output record of `get_corrections`, fields in the `final_colums` order
(lines 409-419). -/
structure CorrRecord where
  SubmittedBy : String
  Timestamp : String
  FullName : String
  Date : Nat
  Session : String
  Time : STime
  Action : String
  Grade : String
  Notes : String
deriving DecidableEq, Repr

/-- The record the melt produces from row `r` for a selected student. -/
def CorrRow.record (r : CorrRow) (name : String) : CorrRecord :=
  { SubmittedBy := r.SubmittedBy
    Timestamp := r.Timestamp
    FullName := name
    Date := r.Date
    Session := r.Session
    Time := r.Time
    Action := r.Action
    Grade := r.Grade
    Notes := r.Notes }

/-- Sort order of `get_corrections`
(`sort_values(by=['Date','FullName','Session','Time'])`). -/
def corrLe (a b : CorrRecord) : Prop :=
  lexLe (fun x : CorrRecord => x.Date)
    (lexLe (fun x : CorrRecord => x.FullName)
      (lexLe (fun x : CorrRecord => x.Session)
        (fun x y => x.Time.le y.Time))) a b

instance : DecidableRel corrLe := fun a b => by
  unfold corrLe; exact inferInstanceAs (Decidable _)

/-- `helpers.get_corrections` (lines 312-440), with the worksheet read
replaced by the explicit row list, `today` as in `get_attendance`, and
`ncols` the number of "Choose Student (Grade N)" columns of the worksheet:
raise on an inverted range, keep the inclusive `Date` range, melt
(`pd.melt`, one output row per value column and source row, value columns
varying slowest), drop the rows whose melted `FullName` cell is `NaN`
(`dropna`), keep the optional student list, and sort.  The final
display-only `strftime` re-rendering of `Date` and `Time` (lines 431-438)
maps each row pointwise and is not modelled. -/
def get_corrections (rows : List CorrRow) (students : Option (List String))
    (today : Nat) (dateStart? dateEnd? : Option Nat) (ncols : Nat) :
    Except RangeErr (List CorrRecord) :=
  let date_start := dateStart?.getD today
  let date_end := dateEnd?.getD (date_start + 1)
  if date_end < date_start then Except.error RangeErr.InvalidRange
  else
    let filtered : List CorrRow := rows.filter
      (fun r => decide (date_start ≤ r.Date) && decide (r.Date ≤ date_end))
    let melted : List (CorrRow × Option String) :=
      (List.range ncols).flatMap
        (fun c => filtered.map (fun r => (r, r.studentCells.getD c none)))
    let records : List CorrRecord :=
      melted.filterMap (fun p => p.2.map (fun s => p.1.record s))
    let named : List CorrRecord := match students with
      | some ss =>
        if ss.isEmpty then records
        else records.filter (fun x => ss.contains x.FullName)
      | none => records
    Except.ok (named.mergeSort (fun a b => decide (corrLe a b)))

/-- Modelled from the spec: the per-row view of the melt step, "for each
original row, emit one output row per non-empty selected-student column,
each carrying the selected FullName plus the shared id columns". -/
def CorrRow.specRecords (r : CorrRow) : List CorrRecord :=
  r.studentCells.filterMap (fun c => c.map (fun s => r.record s))

/-- A pandas cell value as seen by `df.values.tolist()`: the Python `None`,
a string, an integer, or any other object together with its `str(...)`
rendering. -/
inductive PyVal where
  | PNone
  | PStr (s : String)
  | PInt (n : Int)
  | POther (shown : String)
deriving DecidableEq, Repr

/-- Python `str(value)` on the cell values above. -/
def PyVal.pyStr : PyVal → String
  | PyVal.PNone => "None"
  | PyVal.PStr s => s
  | PyVal.PInt n => toString n
  | PyVal.POther s => s

/-- `helpers.dataframe_to_list` (lines 62-84): `df.values.tolist()` followed
by mapping every `None` cell to `''` and every other cell to `str(value)`. -/
def dataframe_to_list (df : List (List PyVal)) : List (List String) :=
  df.map (fun row =>
    row.map (fun v => if v = PyVal.PNone then "" else v.pyStr))

/-! ### Lemmas about the keep-first duplicate drop -/

theorem dropDupFirstAux_sublist {α κ : Type} [DecidableEq κ] (key : α → κ) :
    ∀ (seen : List κ) (l : List α), List.Sublist (dropDupFirstAux key seen l) l := by
  intro seen l
  induction l generalizing seen with
  | nil => simp [dropDupFirstAux]
  | cons x xs ih =>
    simp only [dropDupFirstAux]
    split
    · exact (ih seen).trans (List.sublist_cons_self x xs)
    · exact (ih (key x :: seen)).cons₂ x

theorem dropDupFirstAux_not_seen {α κ : Type} [DecidableEq κ] (key : α → κ) :
    ∀ (seen : List κ) (l : List α) (y : α),
      y ∈ dropDupFirstAux key seen l → key y ∉ seen := by
  intro seen l
  induction l generalizing seen with
  | nil => simp [dropDupFirstAux]
  | cons x xs ih =>
    intro y hy
    simp only [dropDupFirstAux] at hy
    split at hy
    · exact ih seen y hy
    · rcases List.mem_cons.mp hy with rfl | hy2
      · assumption
      · intro hs
        exact ih (key x :: seen) y hy2 (List.mem_cons_of_mem _ hs)

theorem dropDupFirstAux_nodup {α κ : Type} [DecidableEq κ] (key : α → κ) :
    ∀ (seen : List κ) (l : List α),
      ((dropDupFirstAux key seen l).map key).Nodup := by
  intro seen l
  induction l generalizing seen with
  | nil => simp [dropDupFirstAux]
  | cons x xs ih =>
    simp only [dropDupFirstAux]
    split
    · exact ih seen
    · simp only [List.map_cons, List.nodup_cons]
      refine ⟨?_, ih (key x :: seen)⟩
      intro hmem
      obtain ⟨y, hy, hky⟩ := List.mem_map.mp hmem
      exact dropDupFirstAux_not_seen key _ _ y hy (hky ▸ List.mem_cons_self _ _)

theorem dropDupFirstAux_cover {α κ : Type} [DecidableEq κ] (key : α → κ)
    (R : α → α → Prop) :
    ∀ (seen : List κ) (l : List α), l.Pairwise R →
      ∀ x ∈ l, key x ∉ seen →
        ∃ y ∈ dropDupFirstAux key seen l, key y = key x ∧ (y = x ∨ R y x) := by
  intro seen l
  induction l generalizing seen with
  | nil => simp
  | cons z zs ih =>
    intro hp x hx hxs
    obtain ⟨hz, hzs⟩ := List.pairwise_cons.mp hp
    simp only [dropDupFirstAux]
    split
    · rcases List.mem_cons.mp hx with rfl | hx2
      · exact absurd (by assumption) hxs
      · exact ih seen hzs x hx2 hxs
    · rcases List.mem_cons.mp hx with rfl | hx2
      · exact ⟨x, List.mem_cons_self _ _, rfl, Or.inl rfl⟩
      · by_cases hk : key x = key z
        · exact ⟨z, List.mem_cons_self _ _, hk.symm, Or.inr (hz x hx2)⟩
        · have hxs2 : key x ∉ key z :: seen := by
            intro hmem
            rcases List.mem_cons.mp hmem with h | h
            · exact hk h
            · exact hxs h
          obtain ⟨y, hy, hky, hr⟩ := ih (key z :: seen) hzs x hx2 hxs2
          exact ⟨y, List.mem_cons_of_mem _ hy, hky, hr⟩

theorem dropDupFirstAux_fix {α κ : Type} [DecidableEq κ] (key : α → κ) :
    ∀ (seen : List κ) (l : List α), (l.map key).Nodup →
      (∀ x ∈ l, key x ∉ seen) → dropDupFirstAux key seen l = l := by
  intro seen l
  induction l generalizing seen with
  | nil => simp [dropDupFirstAux]
  | cons x xs ih =>
    intro hnd hseen
    simp only [List.map_cons, List.nodup_cons] at hnd
    simp only [dropDupFirstAux]
    rw [if_neg (hseen x (List.mem_cons_self _ _))]
    congr 1
    refine ih (key x :: seen) hnd.2 ?_
    intro y hy hmem
    rcases List.mem_cons.mp hmem with h | h
    · exact hnd.1 (h ▸ List.mem_map_of_mem key hy)
    · exact hseen y (List.mem_cons_of_mem _ hy) h

theorem drop_duplicates_first_sublist {α κ : Type} [DecidableEq κ]
    (key : α → κ) (l : List α) : List.Sublist (drop_duplicates_first key l) l :=
  dropDupFirstAux_sublist key [] l

theorem drop_duplicates_first_nodup {α κ : Type} [DecidableEq κ]
    (key : α → κ) (l : List α) :
    ((drop_duplicates_first key l).map key).Nodup :=
  dropDupFirstAux_nodup key [] l

theorem drop_duplicates_first_cover {α κ : Type} [DecidableEq κ]
    (key : α → κ) (R : α → α → Prop) (l : List α) (hl : l.Pairwise R) :
    ∀ x ∈ l, ∃ y ∈ drop_duplicates_first key l,
      key y = key x ∧ (y = x ∨ R y x) := by
  intro x hx
  exact dropDupFirstAux_cover key R [] l hl x hx (List.not_mem_nil _)

theorem drop_duplicates_first_fix {α κ : Type} [DecidableEq κ]
    (key : α → κ) (l : List α) (hnd : (l.map key).Nodup) :
    drop_duplicates_first key l = l :=
  dropDupFirstAux_fix key [] l hnd (fun _ _ => List.not_mem_nil _)

theorem dropDupFirstAux_map {α κ : Type} [DecidableEq κ] (key : α → κ)
    (f : α → α) (hf : ∀ a, key (f a) = key a) :
    ∀ (seen : List κ) (l : List α),
      dropDupFirstAux key seen (l.map f)
        = (dropDupFirstAux key seen l).map f := by
  intro seen l
  induction l generalizing seen with
  | nil => simp [dropDupFirstAux]
  | cons x xs ih =>
    simp only [List.map_cons, dropDupFirstAux, hf]
    by_cases h : key x ∈ seen
    · rw [if_pos h, if_pos h, ih]
    · rw [if_neg h, if_neg h, List.map_cons, ih]

theorem drop_duplicates_last_sublist {α κ : Type} [DecidableEq κ]
    (key : α → κ) (l : List α) : List.Sublist (drop_duplicates_last key l) l := by
  have h := (dropDupFirstAux_sublist key [] l.reverse).reverse
  simpa [drop_duplicates_last] using h

theorem drop_duplicates_last_nodup {α κ : Type} [DecidableEq κ]
    (key : α → κ) (l : List α) :
    ((drop_duplicates_last key l).map key).Nodup := by
  rw [drop_duplicates_last, List.map_reverse, List.nodup_reverse]
  exact dropDupFirstAux_nodup key [] l.reverse

theorem drop_duplicates_last_cover {α κ : Type} [DecidableEq κ]
    (key : α → κ) (R : α → α → Prop) (l : List α) (hl : l.Pairwise R) :
    ∀ x ∈ l, ∃ y ∈ drop_duplicates_last key l,
      key y = key x ∧ (y = x ∨ R x y) := by
  intro x hx
  have hrev : l.reverse.Pairwise (fun a b => R b a) :=
    (List.pairwise_reverse).mpr hl
  obtain ⟨y, hy, hky, hr⟩ :=
    dropDupFirstAux_cover key (fun a b => R b a) [] l.reverse hrev x
      (List.mem_reverse.mpr hx) (List.not_mem_nil _)
  refine ⟨y, ?_, hky, hr⟩
  rw [drop_duplicates_last, List.mem_reverse]
  exact hy

/-! ### Lemmas about `get_students` -/

theorem get_students_eq (events : List Event) (d : Nat) (tp : TimePeriod) :
    get_students events (some d) tp
      = drop_duplicates_first Event.nameDateKey
          (((events.filter (fun e => decide (e.SubmitDate = d))).filter
              (periodKeep tp)).mergeSort
            (fun a b => STime.leb a.SubmitTime b.SubmitTime)) := rfl

theorem studentsSort_pairwise (l : List Event) :
    (l.mergeSort (fun a b => STime.leb a.SubmitTime b.SubmitTime)).Pairwise
      (fun a b => a.SubmitTime.le b.SubmitTime) := by
  have htrans : ∀ (a b c : Event),
      STime.leb a.SubmitTime b.SubmitTime = true →
        STime.leb b.SubmitTime c.SubmitTime = true →
          STime.leb a.SubmitTime c.SubmitTime = true := by
    intro a b c h1 h2
    simp only [STime.leb, decide_eq_true_eq] at h1 h2 ⊢
    exact STime.le_trans h1 h2
  have htotal : ∀ (a b : Event),
      (STime.leb a.SubmitTime b.SubmitTime
        || STime.leb b.SubmitTime a.SubmitTime) = true := by
    intro a b
    simp only [STime.leb, Bool.or_eq_true, decide_eq_true_eq]
    exact STime.le_total _ _
  exact (List.sorted_mergeSort htrans htotal l).imp
    (fun h => of_decide_eq_true h)

theorem get_students_mem (events : List Event) (d : Nat) (tp : TimePeriod) :
    ∀ e ∈ get_students events (some d) tp,
      e ∈ events ∧ e.SubmitDate = d ∧ periodKeep tp e = true := by
  intro e he
  rw [get_students_eq] at he
  have h1 := (drop_duplicates_first_sublist _ _).subset he
  have h2 := List.mem_mergeSort.mp h1
  have h3 := List.mem_filter.mp h2
  have h4 := List.mem_filter.mp h3.1
  exact ⟨h4.1, of_decide_eq_true h4.2, h3.2⟩

theorem get_students_sorted (events : List Event) (d : Nat) (tp : TimePeriod) :
    (get_students events (some d) tp).Pairwise
      (fun a b => a.SubmitTime.le b.SubmitTime) := by
  rw [get_students_eq]
  exact List.Pairwise.sublist (drop_duplicates_first_sublist _ _)
    (studentsSort_pairwise _)

theorem get_students_nodup (events : List Event) (d : Nat) (tp : TimePeriod) :
    ((get_students events (some d) tp).map Event.nameDateKey).Nodup := by
  rw [get_students_eq]
  exact drop_duplicates_first_nodup _ _

theorem get_students_cover (events : List Event) (d : Nat) (tp : TimePeriod) :
    ∀ e ∈ events, e.SubmitDate = d → periodKeep tp e = true →
      ∃ y ∈ get_students events (some d) tp,
        y.FullName = e.FullName ∧ y.SubmitDate = e.SubmitDate
          ∧ y.SubmitTime.le e.SubmitTime := by
  intro e he hd hp
  simp only [get_students_eq]
  have hf1 : e ∈ events.filter (fun e => decide (e.SubmitDate = d)) :=
    List.mem_filter.mpr ⟨he, decide_eq_true hd⟩
  have hf2 : e ∈ (events.filter (fun e => decide (e.SubmitDate = d))).filter
      (periodKeep tp) :=
    List.mem_filter.mpr ⟨hf1, hp⟩
  have hs : e ∈ ((events.filter (fun e => decide (e.SubmitDate = d))).filter
      (periodKeep tp)).mergeSort
        (fun a b => STime.leb a.SubmitTime b.SubmitTime) :=
    List.mem_mergeSort.mpr hf2
  obtain ⟨y, hy, hkey, hcase⟩ :=
    drop_duplicates_first_cover Event.nameDateKey
      (fun a b => a.SubmitTime.le b.SubmitTime) _
      (studentsSort_pairwise _) e hs
  have hnd : y.FullName = e.FullName ∧ y.SubmitDate = e.SubmitDate := by
    simpa [Event.nameDateKey, Prod.ext_iff] using hkey
  refine ⟨y, hy, hnd.1, hnd.2, ?_⟩
  rcases hcase with rfl | hr
  · exact STime.le_refl _
  · exact hr

theorem get_students_map_override (events : List Event) (d : Nat)
    (tp : TimePeriod) (g : Event → Option STime) :
    get_students (events.map (fun e => { e with OverrideTime := g e }))
        (some d) tp
      = (get_students events (some d) tp).map
          (fun e => { e with OverrideTime := g e }) := by
  have h1 : (events.map (fun e => { e with OverrideTime := g e })).filter
      (fun e => decide (e.SubmitDate = d))
      = (events.filter (fun e => decide (e.SubmitDate = d))).map
          (fun e => { e with OverrideTime := g e }) :=
    List.filter_map _ events
  have h2 : ((events.filter (fun e => decide (e.SubmitDate = d))).map
        (fun e => { e with OverrideTime := g e })).filter (periodKeep tp)
      = ((events.filter (fun e => decide (e.SubmitDate = d))).filter
          (periodKeep tp)).map (fun e => { e with OverrideTime := g e }) :=
    List.filter_map _ _
  have h3 : (((events.filter (fun e => decide (e.SubmitDate = d))).filter
        (periodKeep tp)).map (fun e => { e with OverrideTime := g e })).mergeSort
          (fun a b => STime.leb a.SubmitTime b.SubmitTime)
      = ((((events.filter (fun e => decide (e.SubmitDate = d))).filter
          (periodKeep tp))).mergeSort
            (fun a b => STime.leb a.SubmitTime b.SubmitTime)).map
          (fun e => { e with OverrideTime := g e }) :=
    (List.map_mergeSort (f := fun e : Event => { e with OverrideTime := g e })
      (fun _ _ _ _ => rfl)).symm
  rw [get_students_eq, get_students_eq, h1, h2, h3]
  exact dropDupFirstAux_map Event.nameDateKey
    (fun e => { e with OverrideTime := g e }) (fun _ => rfl) [] _

/-- Claim C1: `get_students` restricts to rows whose `SubmitDate` is the
given date and whose `SubmitTime` lies in the given period, sorts ascending
by `SubmitTime`, and keeps exactly one row per `(FullName, SubmitDate)`
pair, namely one with the earliest `SubmitTime` among that pair's filtered
rows; `OverrideTime` plays no role (rewriting it arbitrarily commutes with
the whole transform). -/
theorem get_students_dedup_first_wins (events : List Event) (d : Nat)
    (tp : TimePeriod) :
    (∀ e ∈ get_students events (some d) tp,
        e ∈ events ∧ e.SubmitDate = d ∧ periodKeep tp e = true)
    ∧ (get_students events (some d) tp).Pairwise
        (fun a b => a.SubmitTime.le b.SubmitTime)
    ∧ ((get_students events (some d) tp).map Event.nameDateKey).Nodup
    ∧ (∀ e ∈ events, e.SubmitDate = d → periodKeep tp e = true →
        ∃ y ∈ get_students events (some d) tp,
          y.FullName = e.FullName ∧ y.SubmitDate = e.SubmitDate
            ∧ y.SubmitTime.le e.SubmitTime)
    ∧ (∀ g : Event → Option STime,
        get_students (events.map (fun e => { e with OverrideTime := g e }))
            (some d) tp
          = (get_students events (some d) tp).map
              (fun e => { e with OverrideTime := g e })) :=
  ⟨get_students_mem events d tp, get_students_sorted events d tp,
    get_students_nodup events d tp, get_students_cover events d tp,
    get_students_map_override events d tp⟩

/-- Concrete instance of C1: two morning check-ins for Alice at 08:10 and
08:45; rewriting `OverrideTime` commutes with `get_students`. -/
theorem get_students_dedup_first_wins_witness :
    get_students
        (([⟨⟨8, 45, 0⟩, 3, none, "Alice A", "A", "Alice", "3"⟩,
           ⟨⟨8, 10, 0⟩, 3, none, "Alice A", "A", "Alice", "3"⟩] :
            List Event).map
          (fun e => { e with OverrideTime := some ⟨9, 0, 0⟩ }))
        (some 3) TimePeriod.MORNING
      = (get_students
          ([⟨⟨8, 45, 0⟩, 3, none, "Alice A", "A", "Alice", "3"⟩,
            ⟨⟨8, 10, 0⟩, 3, none, "Alice A", "A", "Alice", "3"⟩] :
             List Event)
          (some 3) TimePeriod.MORNING).map
          (fun e => { e with OverrideTime := some ⟨9, 0, 0⟩ }) :=
  (get_students_dedup_first_wins
      ([⟨⟨8, 45, 0⟩, 3, none, "Alice A", "A", "Alice", "3"⟩,
        ⟨⟨8, 10, 0⟩, 3, none, "Alice A", "A", "Alice", "3"⟩] : List Event)
      3 TimePeriod.MORNING).2.2.2.2 (fun _ => some ⟨9, 0, 0⟩)

/-! ### The sort contract of `get_students` and idempotence -/

theorem get_students_sort_eq (sortfn : List Event → List Event)
    (events : List Event) (d : Nat) (tp : TimePeriod) :
    get_students_sort sortfn events (some d) tp
      = drop_duplicates_first Event.nameDateKey
          (sortfn ((events.filter (fun e => decide (e.SubmitDate = d))).filter
            (periodKeep tp))) := rfl

theorem get_students_eq_sort (events : List Event) (date : Option Nat)
    (tp : TimePeriod) :
    get_students events date tp
      = get_students_sort
          (fun l => l.mergeSort (fun a b => STime.leb a.SubmitTime b.SubmitTime))
          events date tp := rfl

theorem insertBelow_perm {α : Type} (le : α → α → Bool) (x : α) :
    ∀ l : List α, (insertBelow le x l).Perm (x :: l) := by
  intro l
  induction l with
  | nil => exact List.Perm.refl _
  | cons y ys ih =>
    simp only [insertBelow]
    split
    · exact (ih.cons y).trans (List.Perm.swap x y ys)
    · exact List.Perm.refl _

theorem insertBelow_pairwise {α : Type} (le : α → α → Bool)
    (htrans : ∀ a b c, le a b = true → le b c = true → le a c = true)
    (htotal : ∀ a b, (le a b || le b a) = true) (x : α) :
    ∀ l : List α, l.Pairwise (fun a b => le a b = true) →
      (insertBelow le x l).Pairwise (fun a b => le a b = true) := by
  intro l
  induction l with
  | nil =>
    intro _
    simp [insertBelow]
  | cons y ys ih =>
    intro hp
    obtain ⟨hy, hys⟩ := List.pairwise_cons.mp hp
    simp only [insertBelow]
    split
    case isTrue h =>
      refine List.pairwise_cons.mpr ⟨?_, ih hys⟩
      intro z hz
      rcases List.mem_cons.mp ((insertBelow_perm le x ys).subset hz)
          with rfl | hz2
      · exact h
      · exact hy z hz2
    case isFalse h =>
      have hxy : le x y = true := by
        rcases Bool.or_eq_true_iff.mp (htotal x y) with h1 | h1
        · exact h1
        · exact absurd h1 h
      refine List.pairwise_cons.mpr ⟨?_, hp⟩
      intro z hz
      rcases List.mem_cons.mp hz with rfl | hz2
      · exact hxy
      · exact htrans x y z hxy (hy z hz2)

theorem unstableSortWitness_perm {α : Type} (le : α → α → Bool) :
    ∀ l : List α, (unstableSortWitness le l).Perm l := by
  intro l
  induction l with
  | nil => exact List.Perm.refl _
  | cons x xs ih =>
    simp only [unstableSortWitness]
    exact (insertBelow_perm le x _).trans (ih.cons x)

theorem unstableSortWitness_pairwise {α : Type} (le : α → α → Bool)
    (htrans : ∀ a b c, le a b = true → le b c = true → le a c = true)
    (htotal : ∀ a b, (le a b || le b a) = true) :
    ∀ l : List α,
      (unstableSortWitness le l).Pairwise (fun a b => le a b = true) := by
  intro l
  induction l with
  | nil => simp [unstableSortWitness]
  | cons x xs ih =>
    simp only [unstableSortWitness]
    exact insertBelow_pairwise le htrans htotal x _ ih

theorem unstableSortWitness_submitTimeSort :
    SubmitTimeSort (unstableSortWitness
      (fun a b => STime.leb a.SubmitTime b.SubmitTime)) := by
  intro l
  refine ⟨unstableSortWitness_perm _ l, ?_⟩
  have htrans : ∀ (a b c : Event),
      STime.leb a.SubmitTime b.SubmitTime = true →
        STime.leb b.SubmitTime c.SubmitTime = true →
          STime.leb a.SubmitTime c.SubmitTime = true := by
    intro a b c h1 h2
    simp only [STime.leb, decide_eq_true_eq] at h1 h2 ⊢
    exact STime.le_trans h1 h2
  have htotal : ∀ (a b : Event),
      (STime.leb a.SubmitTime b.SubmitTime
        || STime.leb b.SubmitTime a.SubmitTime) = true := by
    intro a b
    simp only [STime.leb, Bool.or_eq_true, decide_eq_true_eq]
    exact STime.le_total _ _
  exact (unstableSortWitness_pairwise _ htrans htotal l).imp
    (fun h => of_decide_eq_true h)

/-- Claim C5 (amended): for any two sorts meeting the `sort_values`
contract — a `SubmitTime`-sorted permutation, all pandas' unstable default
kind guarantees — applying the filter-sort-dedup transform to its own
output removes no rows and adds none: the second application returns a
permutation of the first's output, still sorted by `SubmitTime` and still
with pairwise-distinct `(FullName, SubmitDate)` keys.  Exact order equality
can fail only by reordering rows with tied `SubmitTime`. -/
theorem get_students_idempotent_upto_perm (f g : List Event → List Event)
    (hf : SubmitTimeSort f) (hg : SubmitTimeSort g)
    (events : List Event) (d : Nat) (tp : TimePeriod) :
    (get_students_sort g (get_students_sort f events (some d) tp)
        (some d) tp).Perm (get_students_sort f events (some d) tp)
    ∧ (get_students_sort g (get_students_sort f events (some d) tp)
        (some d) tp).Pairwise (fun a b => a.SubmitTime.le b.SubmitTime)
    ∧ ((get_students_sort g (get_students_sort f events (some d) tp)
        (some d) tp).map Event.nameDateKey).Nodup := by
  have hmem : ∀ e ∈ get_students_sort f events (some d) tp,
      e.SubmitDate = d ∧ periodKeep tp e = true := by
    intro e he
    rw [get_students_sort_eq] at he
    have h1 := (drop_duplicates_first_sublist _ _).subset he
    have h2 := (hf _).1.subset h1
    have h3 := List.mem_filter.mp h2
    have h4 := List.mem_filter.mp h3.1
    exact ⟨of_decide_eq_true h4.2, h3.2⟩
  have hnodup : ((get_students_sort f events (some d) tp).map
      Event.nameDateKey).Nodup := by
    rw [get_students_sort_eq]
    exact drop_duplicates_first_nodup _ _
  have hfilt1 : (get_students_sort f events (some d) tp).filter
      (fun e => decide (e.SubmitDate = d))
      = get_students_sort f events (some d) tp :=
    List.filter_eq_self.mpr (fun e he => decide_eq_true (hmem e he).1)
  have hfilt2 : (get_students_sort f events (some d) tp).filter
      (periodKeep tp) = get_students_sort f events (some d) tp :=
    List.filter_eq_self.mpr (fun e he => (hmem e he).2)
  have hgnodup : ((g (get_students_sort f events (some d) tp)).map
      Event.nameDateKey).Nodup :=
    (((hg _).1.map Event.nameDateKey).nodup_iff).mpr hnodup
  have hsecond : get_students_sort g (get_students_sort f events (some d) tp)
      (some d) tp = g (get_students_sort f events (some d) tp) := by
    rw [get_students_sort_eq, hfilt1, hfilt2]
    exact drop_duplicates_first_fix _ _ hgnodup
  refine ⟨?_, ?_, ?_⟩
  · rw [hsecond]
    exact (hg _).1
  · rw [hsecond]
    exact (hg _).2
  · rw [hsecond]
    exact hgnodup

/-- Counterexample to C5 as stated: under a sort meeting the
`sort_values(by='SubmitTime')` contract (the default sort kind is
unstable, so the tie order is not promised), the transform applied to its
own output can reorder rows with tied `SubmitTime`: with Alice and Bob both
checked in at 08:10, applying the transform twice differs from once. -/
theorem get_students_idempotent_counterexample :
    SubmitTimeSort (unstableSortWitness
      (fun a b => STime.leb a.SubmitTime b.SubmitTime))
    ∧ get_students_sort (unstableSortWitness
          (fun a b => STime.leb a.SubmitTime b.SubmitTime))
        (get_students_sort (unstableSortWitness
            (fun a b => STime.leb a.SubmitTime b.SubmitTime))
          ([⟨⟨8, 10, 0⟩, 3, none, "Alice A", "A", "Alice", "3"⟩,
            ⟨⟨8, 10, 0⟩, 3, none, "Bob B", "B", "Bob", "4"⟩] : List Event)
          (some 3) TimePeriod.MORNING)
        (some 3) TimePeriod.MORNING
      ≠ get_students_sort (unstableSortWitness
            (fun a b => STime.leb a.SubmitTime b.SubmitTime))
          ([⟨⟨8, 10, 0⟩, 3, none, "Alice A", "A", "Alice", "3"⟩,
            ⟨⟨8, 10, 0⟩, 3, none, "Bob B", "B", "Bob", "4"⟩] : List Event)
          (some 3) TimePeriod.MORNING :=
  ⟨unstableSortWitness_submitTimeSort, by decide⟩

/-- Concrete instance of the amended C5: at the same tied pair, the second
application is a permutation of the first's output, sorted, with distinct
keys — even though it is not equal to it. -/
theorem get_students_idempotent_upto_perm_witness :
    (get_students_sort (unstableSortWitness
          (fun a b => STime.leb a.SubmitTime b.SubmitTime))
        (get_students_sort (unstableSortWitness
            (fun a b => STime.leb a.SubmitTime b.SubmitTime))
          ([⟨⟨8, 10, 0⟩, 3, none, "Alice A", "A", "Alice", "3"⟩,
            ⟨⟨8, 10, 0⟩, 3, none, "Bob B", "B", "Bob", "4"⟩] : List Event)
          (some 3) TimePeriod.MORNING)
        (some 3) TimePeriod.MORNING).Perm
      (get_students_sort (unstableSortWitness
          (fun a b => STime.leb a.SubmitTime b.SubmitTime))
        ([⟨⟨8, 10, 0⟩, 3, none, "Alice A", "A", "Alice", "3"⟩,
          ⟨⟨8, 10, 0⟩, 3, none, "Bob B", "B", "Bob", "4"⟩] : List Event)
        (some 3) TimePeriod.MORNING)
    ∧ (get_students_sort (unstableSortWitness
          (fun a b => STime.leb a.SubmitTime b.SubmitTime))
        (get_students_sort (unstableSortWitness
            (fun a b => STime.leb a.SubmitTime b.SubmitTime))
          ([⟨⟨8, 10, 0⟩, 3, none, "Alice A", "A", "Alice", "3"⟩,
            ⟨⟨8, 10, 0⟩, 3, none, "Bob B", "B", "Bob", "4"⟩] : List Event)
          (some 3) TimePeriod.MORNING)
        (some 3) TimePeriod.MORNING).Pairwise
      (fun a b => a.SubmitTime.le b.SubmitTime)
    ∧ ((get_students_sort (unstableSortWitness
          (fun a b => STime.leb a.SubmitTime b.SubmitTime))
        (get_students_sort (unstableSortWitness
            (fun a b => STime.leb a.SubmitTime b.SubmitTime))
          ([⟨⟨8, 10, 0⟩, 3, none, "Alice A", "A", "Alice", "3"⟩,
            ⟨⟨8, 10, 0⟩, 3, none, "Bob B", "B", "Bob", "4"⟩] : List Event)
          (some 3) TimePeriod.MORNING)
        (some 3) TimePeriod.MORNING).map Event.nameDateKey).Nodup :=
  get_students_idempotent_upto_perm
    (unstableSortWitness (fun a b => STime.leb a.SubmitTime b.SubmitTime))
    (unstableSortWitness (fun a b => STime.leb a.SubmitTime b.SubmitTime))
    unstableSortWitness_submitTimeSort unstableSortWitness_submitTimeSort
    ([⟨⟨8, 10, 0⟩, 3, none, "Alice A", "A", "Alice", "3"⟩,
      ⟨⟨8, 10, 0⟩, 3, none, "Bob B", "B", "Bob", "4"⟩] : List Event)
    3 TimePeriod.MORNING

/-- Claim C8: empty input logs give empty outputs, with no error: the
`get_students` transform, the current-presence frame, `get_attendance` and
`get_corrections` on empty logs all return empty results. -/
theorem flatMap_const_nil {α β : Type} (l : List α) :
    (l.flatMap (fun _ => ([] : List β))) = [] := by
  induction l <;> simp_all

theorem empty_logs_empty_outputs (d today ncols : Nat) (tp : TimePeriod)
    (dd : Bool) :
    get_students [] (some d) tp = []
    ∧ df_current [] [] = []
    ∧ get_attendance [] [] none today none none dd = Except.ok []
    ∧ get_corrections [] none today none none ncols = Except.ok [] := by
  refine ⟨?_, rfl, ?_, ?_⟩
  · rw [get_students_eq]
    simp [drop_duplicates_first, dropDupFirstAux]
  · have hne : ¬ (today + 1 < today) := by omega
    cases dd <;>
      simp [get_attendance, attendanceRows, drop_duplicates_last,
        dropDupFirstAux, if_neg hne]
  · have hne : ¬ (today + 1 < today) := by omega
    simp [get_corrections, if_neg hne, flatMap_const_nil]

/-- Claim C2: for any deduplicated check-in and check-out frames, the
currently-present frame contains exactly the `FullName` values occurring in
the check-in frame and not in the check-out frame. -/
theorem df_current_presence_difference (ins outs : List Event)
    (name : String) :
    (∃ e ∈ df_current ins outs, e.FullName = name)
      ↔ ((∃ e ∈ ins, e.FullName = name) ∧ ¬ ∃ e ∈ outs, e.FullName = name) := by
  constructor
  · rintro ⟨e, he, rfl⟩
    rw [df_current, List.mem_filter] at he
    obtain ⟨hin, hcond⟩ := he
    simp only [Bool.not_eq_eq_eq_not, Bool.not_true, List.any_eq_false,
      beq_iff_eq] at hcond
    exact ⟨⟨e, hin, rfl⟩, fun ⟨o, ho, hoe⟩ => hcond o ho hoe⟩
  · rintro ⟨⟨e, he, rfl⟩, hno⟩
    refine ⟨e, ?_, rfl⟩
    rw [df_current, List.mem_filter]
    refine ⟨he, ?_⟩
    simp only [Bool.not_eq_eq_eq_not, Bool.not_true, List.any_eq_false,
      beq_iff_eq]
    exact fun o ho hoe => hno ⟨o, ho, hoe⟩

/-- Concrete instance of C2: check-ins for Alice and Bob, check-out for
Alice only, so exactly Bob is currently present. -/
theorem df_current_presence_difference_witness :
    (∃ e ∈ df_current
        ([⟨⟨8, 0, 0⟩, 3, none, "Alice", "A", "Alice", "3"⟩,
          ⟨⟨8, 5, 0⟩, 3, none, "Bob", "B", "Bob", "4"⟩] : List Event)
        ([⟨⟨8, 30, 0⟩, 3, none, "Alice", "A", "Alice", "3"⟩] : List Event),
        e.FullName = "Bob")
      ↔ ((∃ e ∈ ([⟨⟨8, 0, 0⟩, 3, none, "Alice", "A", "Alice", "3"⟩,
            ⟨⟨8, 5, 0⟩, 3, none, "Bob", "B", "Bob", "4"⟩] : List Event),
            e.FullName = "Bob")
          ∧ ¬ ∃ e ∈ ([⟨⟨8, 30, 0⟩, 3, none, "Alice", "A", "Alice", "3"⟩] :
              List Event), e.FullName = "Bob") :=
  df_current_presence_difference
    ([⟨⟨8, 0, 0⟩, 3, none, "Alice", "A", "Alice", "3"⟩,
      ⟨⟨8, 5, 0⟩, 3, none, "Bob", "B", "Bob", "4"⟩] : List Event)
    ([⟨⟨8, 30, 0⟩, 3, none, "Alice", "A", "Alice", "3"⟩] : List Event)
    "Bob"

/-- Claim C4: time-period classification is a pure total function of the
local hour: hour `< 9` classifies MORNING, hour `>= 9` AFTERNOON, and the
row filter of `get_students` agrees with the classifier for both periods. -/
theorem time_period_boundary (t : STime) (tp : TimePeriod) (e : Event) :
    (time_period t = TimePeriod.MORNING ↔ t.hour < 9)
    ∧ (time_period t = TimePeriod.AFTERNOON ↔ 9 ≤ t.hour)
    ∧ (periodKeep tp e = true ↔ time_period e.SubmitTime = tp) := by
  refine ⟨?_, ?_, ?_⟩
  · rw [time_period]
    by_cases h : t.hour < 9 <;> simp [h]
  · rw [time_period]
    by_cases h : t.hour < 9 <;> (simp [h]; try omega)
  · cases tp <;>
      · rw [periodKeep, time_period]
        by_cases h : e.SubmitTime.hour < 9 <;> (simp [h]; try omega)

/-- Concrete instance of C4: `"08:59:59"` classifies MORNING and
`"09:00:00"` classifies AFTERNOON. -/
theorem time_period_boundary_witness :
    time_period ⟨8, 59, 59⟩ = TimePeriod.MORNING
    ∧ time_period ⟨9, 0, 0⟩ = TimePeriod.AFTERNOON :=
  ⟨(time_period_boundary ⟨8, 59, 59⟩ TimePeriod.MORNING
      ⟨⟨8, 59, 59⟩, 0, none, "", "", "", ""⟩).1.mpr (by decide),
   (time_period_boundary ⟨9, 0, 0⟩ TimePeriod.MORNING
      ⟨⟨9, 0, 0⟩, 0, none, "", "", "", ""⟩).2.1.mpr (by decide)⟩

/-- Claim C10: `dataframe_to_list` keeps the number of rows and the number
of cells per row, sending `None` cells to `''` and every other cell to its
string representation. -/
theorem dataframe_to_list_strings (df : List (List PyVal)) :
    (dataframe_to_list df).length = df.length
    ∧ List.Forall₂
        (fun (r : List PyVal) (r2 : List String) =>
          r2.length = r.length
          ∧ List.Forall₂
              (fun v s =>
                (v = PyVal.PNone ∧ s = "")
                ∨ (v ≠ PyVal.PNone ∧ s = v.pyStr)) r r2)
        df (dataframe_to_list df) := by
  constructor
  · exact List.length_map df _
  · rw [dataframe_to_list, List.forall₂_map_right_iff, List.forall₂_same]
    intro r _
    constructor
    · exact List.length_map r _
    · rw [List.forall₂_map_right_iff, List.forall₂_same]
      intro v _
      by_cases h : v = PyVal.PNone
      · exact Or.inl ⟨h, by rw [if_pos h]⟩
      · exact Or.inr ⟨h, by rw [if_neg h]⟩

/-- Concrete instance of C10: a two-cell row keeps its single-row shape. -/
theorem dataframe_to_list_strings_witness :
    (dataframe_to_list [[PyVal.PNone, PyVal.PInt 5]]).length = 1 :=
  (dataframe_to_list_strings [[PyVal.PNone, PyVal.PInt 5]]).1.trans rfl

/-- Claim C6: an inverted range (`date_end < date_start`) makes both
`get_attendance` and `get_corrections` fail with the invalid-range error —
returning it for every log content whatsoever, so no read of the store can
influence the outcome — while a well-ordered range never produces it. -/
theorem range_validation_fail_fast (cks outs : List Event)
    (rows : List CorrRow) (s1 s2 : Option (List String))
    (today ds de ncols : Nat) (dd : Bool) :
    (de < ds →
      get_attendance cks outs s1 today (some ds) (some de) dd
          = Except.error RangeErr.InvalidRange
        ∧ get_corrections rows s2 today (some ds) (some de) ncols
          = Except.error RangeErr.InvalidRange)
    ∧ (ds ≤ de →
      get_attendance cks outs s1 today (some ds) (some de) dd
          ≠ Except.error RangeErr.InvalidRange
        ∧ get_corrections rows s2 today (some ds) (some de) ncols
          ≠ Except.error RangeErr.InvalidRange) := by
  constructor
  · intro h
    constructor
    · simp only [get_attendance, Option.getD_some]
      rw [if_pos h]
    · simp only [get_corrections, Option.getD_some]
      rw [if_pos h]
  · intro h
    have hn : ¬ (de < ds) := by omega
    constructor
    · simp only [get_attendance, Option.getD_some]
      rw [if_neg hn]
      simp
    · simp only [get_corrections, Option.getD_some]
      rw [if_neg hn]
      simp

/-- Concrete instance of C6: the inverted range (start 5, end 1) errors on
empty stores, and the ordered range (start 1, end 5) does not. -/
theorem range_validation_fail_fast_witness :
    get_attendance [] [] none 0 (some 5) (some 1) false
        = Except.error RangeErr.InvalidRange
    ∧ get_corrections [] none 0 (some 5) (some 1) 2
        = Except.error RangeErr.InvalidRange
    ∧ get_attendance [] [] none 0 (some 1) (some 5) false
        ≠ Except.error RangeErr.InvalidRange :=
  ⟨((range_validation_fail_fast [] [] [] none none 0 5 1 2 false).1
      (by decide)).1,
   ((range_validation_fail_fast [] [] [] none none 0 5 1 2 false).1
      (by decide)).2,
   ((range_validation_fail_fast [] [] [] none none 0 1 5 2 false).2
      (by decide)).1⟩

/-- Claim C9: omitted dates default to `date_start = today` and
`date_end = date_start + 1 day`, so a defaulted call can never raise the
invalid-range error. -/
theorem get_attendance_default_dates (cks outs : List Event)
    (s : Option (List String)) (today ds : Nat) (dd : Bool) :
    get_attendance cks outs s today none none dd
        = get_attendance cks outs s today (some today) (some (today + 1)) dd
    ∧ get_attendance cks outs s today none none dd
        ≠ Except.error RangeErr.InvalidRange
    ∧ get_attendance cks outs s today (some ds) none dd
        = get_attendance cks outs s today (some ds) (some (ds + 1)) dd
    ∧ get_attendance cks outs s today (some ds) none dd
        ≠ Except.error RangeErr.InvalidRange := by
  refine ⟨rfl, ?_, rfl, ?_⟩
  · simp only [get_attendance, Option.getD_none]
    rw [if_neg (by omega : ¬ (today + 1 < today))]
    simp
  · simp only [get_attendance, Option.getD_none, Option.getD_some]
    rw [if_neg (by omega : ¬ (ds + 1 < ds))]
    simp

/-- Concrete instance of C9: a fully defaulted call equals the explicit
`(today, today + 1)` call and raises no invalid-range error. -/
theorem get_attendance_default_dates_witness :
    get_attendance [] [] none 7 none none false
        = get_attendance [] [] none 7 (some 7) (some 8) false
    ∧ get_attendance [] [] none 7 none none false
        ≠ Except.error RangeErr.InvalidRange :=
  ⟨(get_attendance_default_dates [] [] none 7 0 false).1,
   (get_attendance_default_dates [] [] none 7 0 false).2.1⟩

/-! ### Lemmas about `get_attendance` -/

theorem attLe_trans : ∀ (a b c : Event), attLe a b → attLe b c → attLe a c :=
  lexLe_trans (lexLe_trans (lexLe_trans
    (fun _ _ _ hx hy => STime.le_trans hx hy)))

theorem attLe_total : ∀ (a b : Event), attLe a b ∨ attLe b a := by
  intro a b
  apply lexLe_total
  intro x y
  apply lexLe_total
  intro u v
  apply lexLe_total
  intro i j
  exact STime.le_total i.SubmitTime j.SubmitTime

theorem mergeSort_tagged_pairwise (l : List (Event × CheckinForm.Action)) :
    ((l.mergeSort (fun p q => decide (attLe p.1 q.1))).map
      AttRow.ofTagged).Pairwise attRowLe := by
  have htrans : ∀ (a b c : Event × CheckinForm.Action),
      decide (attLe a.1 b.1) = true → decide (attLe b.1 c.1) = true →
        decide (attLe a.1 c.1) = true := by
    intro a b c h1 h2
    simp only [decide_eq_true_eq] at h1 h2 ⊢
    exact attLe_trans _ _ _ h1 h2
  have htotal : ∀ (a b : Event × CheckinForm.Action),
      (decide (attLe a.1 b.1) || decide (attLe b.1 a.1)) = true := by
    intro a b
    simp only [Bool.or_eq_true, decide_eq_true_eq]
    exact attLe_total _ _
  rw [List.pairwise_map]
  exact (List.sorted_mergeSort htrans htotal l).imp
    (fun h => of_decide_eq_true h)

theorem attendanceRows_pairwise (cks outs : List Event)
    (s : Option (List String)) (ds de : Nat) :
    (attendanceRows cks outs s ds de).Pairwise attRowLe :=
  mergeSort_tagged_pairwise _

theorem attRowLe_same_key {a b : AttRow} (hk : a.dupKey = b.dupKey)
    (h : attRowLe a b) : a.SubmitTime.le b.SubmitTime := by
  obtain ⟨hL, hF, hD, _⟩ : a.LastName = b.LastName
      ∧ a.FirstName = b.FirstName ∧ a.SubmitDate = b.SubmitDate
      ∧ a.Action = b.Action := by
    simpa [AttRow.dupKey, Prod.ext_iff] using hk
  simp only [attRowLe, lexLe] at h
  rcases h with h | ⟨_, h | ⟨_, h | ⟨_, h⟩⟩⟩
  · rw [hL] at h
    exact absurd h (lt_irrefl _)
  · rw [hF] at h
    exact absurd h (lt_irrefl _)
  · rw [hD] at h
    exact absurd h (lt_irrefl _)
  · exact h

/-- Claim C3: with `drop_duplicates=true` and a valid range,
`get_attendance` keeps exactly one row per
`(LastName, FirstName, SubmitDate, Action)` group, namely one whose
`SubmitTime` is latest within the group — the opposite tie-break of the
keep-first dedup of `get_students`. -/
theorem get_attendance_dedup_last_wins (cks outs : List Event)
    (s : Option (List String)) (today ds de : Nat) (h : ds ≤ de) :
    get_attendance cks outs s today (some ds) (some de) true
        = Except.ok (drop_duplicates_last AttRow.dupKey
            (attendanceRows cks outs s ds de))
    ∧ (∀ r ∈ drop_duplicates_last AttRow.dupKey
          (attendanceRows cks outs s ds de),
        r ∈ attendanceRows cks outs s ds de)
    ∧ ((drop_duplicates_last AttRow.dupKey
          (attendanceRows cks outs s ds de)).map AttRow.dupKey).Nodup
    ∧ (∀ r ∈ attendanceRows cks outs s ds de,
        ∃ y ∈ drop_duplicates_last AttRow.dupKey
            (attendanceRows cks outs s ds de),
          AttRow.dupKey y = AttRow.dupKey r ∧ r.SubmitTime.le y.SubmitTime) := by
  refine ⟨?_, ?_, drop_duplicates_last_nodup _ _, ?_⟩
  · simp only [get_attendance, Option.getD_some]
    rw [if_neg (by omega : ¬ (de < ds))]
    simp
  · intro r hr
    exact (drop_duplicates_last_sublist _ _).subset hr
  · intro r hr
    obtain ⟨y, hy, hk, hcase⟩ :=
      drop_duplicates_last_cover AttRow.dupKey attRowLe _
        (attendanceRows_pairwise cks outs s ds de) r hr
    refine ⟨y, hy, hk, ?_⟩
    rcases hcase with rfl | hle
    · exact STime.le_refl _
    · exact attRowLe_same_key hk.symm hle

/-- Concrete instance of C3: two morning check-ins for Alice at 08:10 and
08:45 inside the range `[1, 5]`, deduplicated keeping the last. -/
theorem get_attendance_dedup_last_wins_witness :
    (1 : Nat) ≤ 5
    ∧ get_attendance
        ([⟨⟨8, 10, 0⟩, 3, none, "Alice A", "A", "Alice", "3"⟩,
          ⟨⟨8, 45, 0⟩, 3, none, "Alice A", "A", "Alice", "3"⟩] : List Event)
        [] none 0 (some 1) (some 5) true
      = Except.ok (drop_duplicates_last AttRow.dupKey
          (attendanceRows
            ([⟨⟨8, 10, 0⟩, 3, none, "Alice A", "A", "Alice", "3"⟩,
              ⟨⟨8, 45, 0⟩, 3, none, "Alice A", "A", "Alice", "3"⟩] :
                List Event)
            [] none 1 5)) :=
  ⟨by decide,
   (get_attendance_dedup_last_wins
      ([⟨⟨8, 10, 0⟩, 3, none, "Alice A", "A", "Alice", "3"⟩,
        ⟨⟨8, 45, 0⟩, 3, none, "Alice A", "A", "Alice", "3"⟩] : List Event)
      [] none 0 1 5 (by decide)).1⟩

/-! ### Lemmas about the melt of `get_corrections` -/

theorem flatMap_congr_mem {α β : Type} {f g : α → List β} :
    ∀ {l : List α}, (∀ x ∈ l, f x = g x) → l.flatMap f = l.flatMap g := by
  intro l h
  induction l with
  | nil => rfl
  | cons x xs ih =>
    rw [List.flatMap_cons, List.flatMap_cons,
      h x (List.mem_cons_self _ _), ih (fun y hy => h y (List.mem_cons_of_mem _ hy))]

theorem filterMap_eq_flatMap_toList {α γ : Type} (g : α → Option γ)
    (l : List α) : l.filterMap g = l.flatMap (fun a => (g a).toList) := by
  induction l with
  | nil => rfl
  | cons x xs ih =>
    cases hgx : g x <;>
      simp [List.filterMap_cons, hgx, ih, Option.toList]

theorem filterMap_flatMap {α β γ : Type} (l : List α) (f : α → List β)
    (g : β → Option γ) :
    (l.flatMap f).filterMap g = l.flatMap (fun x => (f x).filterMap g) := by
  induction l with
  | nil => rfl
  | cons x xs ih =>
    rw [List.flatMap_cons, List.flatMap_cons, List.filterMap_append, ih]

theorem flatMap_add_perm {α γ : Type} (l : List α) (p q : α → List γ) :
    (l.flatMap (fun x => p x ++ q x)).Perm (l.flatMap p ++ l.flatMap q) := by
  induction l with
  | nil => simp
  | cons x xs ih =>
    rw [List.flatMap_cons, List.flatMap_cons, List.flatMap_cons]
    refine List.Perm.trans (List.Perm.append_left _ ih) ?_
    rw [List.append_assoc, List.append_assoc]
    refine List.Perm.append_left (p x) ?_
    rw [← List.append_assoc, ← List.append_assoc]
    exact List.Perm.append_right _ List.perm_append_comm

theorem flatMap_swap_perm {α β γ : Type} (as : List α) (bs : List β)
    (f : α → β → List γ) :
    (as.flatMap (fun a => bs.flatMap (fun b => f a b))).Perm
      (bs.flatMap (fun b => as.flatMap (fun a => f a b))) := by
  induction as with
  | nil =>
    simp only [List.flatMap_nil, flatMap_const_nil]
    exact List.Perm.nil
  | cons a as ih =>
    rw [List.flatMap_cons]
    refine List.Perm.trans ?_ (flatMap_add_perm bs _ _).symm
    exact List.Perm.append_left _ ih

theorem range_flatMap_getD {α γ : Type} (g : α → Option γ) (d : α) :
    ∀ L : List α,
      (List.range L.length).flatMap (fun c => (g (L.getD c d)).toList)
        = L.filterMap g := by
  intro L
  induction L with
  | nil => rfl
  | cons x xs ih =>
    rw [List.length_cons, List.range_succ_eq_map, List.flatMap_cons,
      List.flatMap_map]
    simp only [List.getD_cons_succ, List.getD_cons_zero, Function.comp]
    rw [ih]
    cases hgx : g x <;>
      simp [List.filterMap_cons, hgx, Option.toList]

/-- Claim C7: with consistent student columns (every row has `ncols` cells,
blank cells read as `NaN`) and a valid range, `get_corrections` without a
student filter emits, up to the final sort, exactly one record per non-empty
"Choose Student (Grade N)" cell of each in-range row and none for blank
cells; and when the store never holds an empty-string cell, no output record
carries an empty `FullName`. -/
theorem get_corrections_melt_nonempty (rows : List CorrRow)
    (today ds de ncols : Nat)
    (hn : ∀ r ∈ rows, r.studentCells.length = ncols)
    (hde : ds ≤ de)
    (hblank : ∀ r ∈ rows, ∀ c ∈ r.studentCells, c ≠ some "") :
    ∃ out, get_corrections rows none today (some ds) (some de) ncols
        = Except.ok out
      ∧ out.Perm
          ((rows.filter
              (fun r => decide (ds ≤ r.Date) && decide (r.Date ≤ de))).flatMap
            CorrRow.specRecords)
      ∧ ∀ q ∈ out, q.FullName ≠ "" := by
  have hne : ¬ (de < ds) := by omega
  have h2 : ((List.range ncols).flatMap (fun c =>
        (rows.filter
            (fun r => decide (ds ≤ r.Date) && decide (r.Date ≤ de))).map
          (fun r => (r, r.studentCells.getD c none)))).filterMap
        (fun p => p.2.map (fun s => p.1.record s))
      = (List.range ncols).flatMap (fun c =>
          (rows.filter
              (fun r => decide (ds ≤ r.Date) && decide (r.Date ≤ de))).flatMap
            (fun r => (((r.studentCells.getD c none)).map
              (fun s => r.record s)).toList)) := by
    rw [filterMap_flatMap]
    refine flatMap_congr_mem (fun c _ => ?_)
    rw [List.filterMap_map]
    exact filterMap_eq_flatMap_toList _ _
  have h4 : (rows.filter
        (fun r => decide (ds ≤ r.Date) && decide (r.Date ≤ de))).flatMap
        (fun r => (List.range ncols).flatMap
          (fun c => (((r.studentCells.getD c none)).map
            (fun s => r.record s)).toList))
      = (rows.filter
          (fun r => decide (ds ≤ r.Date) && decide (r.Date ≤ de))).flatMap
          CorrRow.specRecords := by
    refine flatMap_congr_mem (fun r hr => ?_)
    have hlen : r.studentCells.length = ncols :=
      hn r (List.mem_filter.mp hr).1
    rw [← hlen]
    exact range_flatMap_getD _ none r.studentCells
  have hperm :
      ((((List.range ncols).flatMap (fun c =>
          (rows.filter
              (fun r => decide (ds ≤ r.Date) && decide (r.Date ≤ de))).map
            (fun r => (r, r.studentCells.getD c none)))).filterMap
        (fun p => p.2.map (fun s => p.1.record s))).mergeSort
        (fun a b => decide (corrLe a b))).Perm
      ((rows.filter
          (fun r => decide (ds ≤ r.Date) && decide (r.Date ≤ de))).flatMap
        CorrRow.specRecords) := by
    refine List.Perm.trans
      (List.Perm.trans (List.mergeSort_perm _ _) (List.Perm.of_eq h2)) ?_
    exact List.Perm.trans (flatMap_swap_perm _ _ _) (List.Perm.of_eq h4)
  refine ⟨_, ?_, hperm, ?_⟩
  · simp only [get_corrections, Option.getD_some]
    rw [if_neg hne]
  · intro q hq
    have hq2 := hperm.mem_iff.mp hq
    obtain ⟨r, hrf, hqr⟩ := List.mem_flatMap.mp hq2
    obtain ⟨c, hc, hcq⟩ := List.mem_filterMap.mp hqr
    cases c with
    | none => simp at hcq
    | some s =>
      have hs : s ≠ "" := fun hs0 =>
        hblank r (List.mem_filter.mp hrf).1 _ hc (by rw [hs0])
      have hqs : q = r.record s := by
        simpa using hcq.symm
      rw [hqs]
      exact hs

/-- Concrete instance of C7: one in-range correction row whose first grade
column holds Jane Doe and whose second is blank. -/
theorem get_corrections_melt_nonempty_witness :
    (∀ r ∈ ([⟨"ts", "who", "3", "AM", "checkin", 3, ⟨8, 0, 0⟩, "",
        [some "Jane Doe", none]⟩] : List CorrRow),
      r.studentCells.length = 2)
    ∧ (1 : Nat) ≤ 5
    ∧ ∃ out, get_corrections
          ([⟨"ts", "who", "3", "AM", "checkin", 3, ⟨8, 0, 0⟩, "",
            [some "Jane Doe", none]⟩] : List CorrRow)
          none 0 (some 1) (some 5) 2
        = Except.ok out
      ∧ out.Perm
          ((([⟨"ts", "who", "3", "AM", "checkin", 3, ⟨8, 0, 0⟩, "",
              [some "Jane Doe", none]⟩] : List CorrRow).filter
            (fun r => decide (1 ≤ r.Date) && decide (r.Date ≤ 5))).flatMap
            CorrRow.specRecords)
      ∧ ∀ q ∈ out, q.FullName ≠ "" :=
  ⟨by decide, by decide,
   get_corrections_melt_nonempty
     ([⟨"ts", "who", "3", "AM", "checkin", 3, ⟨8, 0, 0⟩, "",
       [some "Jane Doe", none]⟩] : List CorrRow)
     0 1 5 2 (by decide) (by decide) (by decide)⟩

end CheckinForm
